import Mathlib

/-!
Verification development for the NWS BoQ Merge & Comparison engine
(`src/x.py`, with `src/updateversion.py` sharing the same helper code).

The Python engine is shallowly embedded:
* spreadsheet cells become the tagged union `Value` (empty / text / number);
  Python floats are modelled as exact rationals `ℚ`, since every claim is
  stated at the level of the comparison logic, not of binary rounding;
* the module-level Merge & Compare loop is split into the pure functions it
  executes per sheet and per row, with 0-based column indices (the source
  uses openpyxl's 1-based indices; the relabeling `c ↦ c-1` is uniform);
* pandas / openpyxl cell reads of absent cells yield `Value.empty`
  (Python `None` / `NaN`).

Python string primitives are re-implemented on `List Char` so that every
definition evaluates by kernel reduction: `str.strip` (ASCII whitespace),
`str.upper` (ASCII), substring containment (`in`), and the two regex idioms
used by the source (`\bAMT\b` word-boundary search and plain
case-insensitive alternation search).
-/

/-- A spreadsheet cell: empty (Python `None` / pandas `NaN`), text, or a
number.  Numbers are modelled as exact rationals. -/
inductive Value where
  | empty : Value
  | text : String → Value
  | num : ℚ → Value
deriving DecidableEq, Repr

/-- Python `str.strip` whitespace class (the ASCII part, which is all the
source's inputs use). -/
def isWs (c : Char) : Bool :=
  c = ' ' || c = '\t' || c = '\n' || c = '\r' || c = '\x0b' || c = '\x0c'

/-- Strip leading and trailing whitespace, as Python `str.strip()`. -/
def trimBoth (l : List Char) : List Char :=
  ((l.dropWhile isWs).reverse.dropWhile isWs).reverse

/-- `leadsWith n h` iff `n` is an initial segment of `h`. -/
def leadsWith : List Char → List Char → Bool
  | [], _ => true
  | _ :: _, [] => false
  | a :: as, b :: bs => a = b && leadsWith as bs

/-- `hasSub n h` iff `n` occurs contiguously inside `h`
(Python `n in h` on strings). -/
def hasSub (n : List Char) : List Char → Bool
  | [] => n.isEmpty
  | c :: t => leadsWith n (c :: t) || hasSub n t

/-- Regex word character (`\w`), restricted to ASCII as used here. -/
def isWordChar (c : Char) : Bool := c.isAlphanum || c = '_'

/-- `re.search(r'\bAMT\b', v)`: the token `AMT` occurs at a position with a
word boundary on both sides. -/
def hasAmtTok (l : List Char) : Bool :=
  (List.range l.length).any (fun i =>
    leadsWith ['A', 'M', 'T'] (l.drop i) &&
    (decide (i = 0) || !isWordChar (l.getD (i - 1) ' ')) &&
    (decide (l.length ≤ i + 3) || !isWordChar (l.getD (i + 3) ' ')))

/-- `str(cell)` for a cell of the header-scan DataFrame: pandas `NaN`
stringifies to `"nan"`; the exact digit rendering of numbers is irrelevant
to every keyword test below (a numeral contains no letters), so the `ℚ`
`toString` stands in for Python's float `repr`. -/
def cellStr : Value → String
  | Value.empty => "nan"
  | Value.text s => s
  | Value.num q => toString q

/-- `df0.iloc[r].astype(str).str.strip().str.upper()` applied to one cell. -/
def normCell (v : Value) : List Char :=
  (trimBoth (cellStr v).toList).map Char.toUpper

/-- The amount test of `detect_header_row`:
`"AMOUNT" in v or v == "AED" or re.search(r'\bAMT\b', v)`. -/
def amountCell (v : List Char) : Bool :=
  hasSub "AMOUNT".toList v || decide (v = "AED".toList) || hasAmtTok v

/-- The per-cell keyword score of `detect_header_row` (the amount pattern
contributes `+2`). -/
def scoreCell (v : List Char) : Int :=
  (if hasSub "ITEM".toList v then 1 else 0) +
  (if hasSub "DESC".toList v || hasSub "DESCRIPTION".toList v then 1 else 0) +
  (if hasSub "RATE".toList v then 1 else 0) +
  (if hasSub "UNIT".toList v then 1 else 0) +
  (if hasSub "QUANTITY".toList v || hasSub "QTY".toList v then 1 else 0) +
  (if amountCell v then 2 else 0)

/-- Cumulative keyword score of a candidate header row. -/
def rowScore (row : List Value) : Int :=
  (row.map normCell).foldl (fun acc v => acc + scoreCell v) 0

/-- `has_amount` for a candidate header row: some cell matches the amount
pattern. -/
def rowHasAmount (row : List Value) : Bool :=
  (row.map normCell).any amountCell

/-- `HEADER_SEARCH_ROWS` from the source configuration. -/
def HEADER_SEARCH_ROWS : Nat := 30

/-- One iteration of the `detect_header_row` loop: update `(best_row,
best_score)` when the row is eligible and scores strictly higher. -/
def hdrStep (grid : List (List Value)) (st : Option Nat × Int) (r : Nat) :
    Option Nat × Int :=
  let row := grid.getD r []
  if rowHasAmount row && decide (st.2 < rowScore row) then
    (some r, rowScore row)
  else st

/-- `detect_header_row(df0)`: scan the first `min(30, len)` rows starting
from `(None, -1)` and return the best row index, or `none`. -/
def detectHeaderRow (grid : List (List Value)) : Option Nat :=
  ((List.range (min HEADER_SEARCH_ROWS grid.length)).foldl
    (hdrStep grid) (none, -1)).1

/-- The header-detection example table from the specification. -/
def demoGrid : List (List Value) :=
  [[Value.text "foo", Value.text "bar"],
   [Value.text "ITEM", Value.text "DESCRIPTION", Value.text "RATE",
    Value.text "QTY", Value.text "AMOUNT"],
   [Value.text "1", Value.text "x", Value.text "10", Value.text "2",
    Value.text "20"]]

/-! ## Numeric Normalizer: `to_number` -/

/-- Characters kept by `re.sub(r'[^\d\.\-]', '', ...)`: digits, the decimal
point and the minus sign (`\d` restricted to ASCII digits, which is all the
source's inputs contain). -/
def numKeep (c : Char) : Bool := c.isDigit || c = '.' || c = '-'

/-- Value of a (possibly empty) digit string read in base 10. -/
def digitsVal (l : List Char) : Nat :=
  l.foldl (fun a c => 10 * a + (c.toNat - 48)) 0

/-- Python `float(s)` on an unsigned string made of digits and dots:
accepts `d+`, `d+.d*`, `.d+` (at least one digit, at most one dot, nothing
else); everything else fails. -/
def parsePos (l : List Char) : Option ℚ :=
  let intp := l.takeWhile Char.isDigit
  match l.dropWhile Char.isDigit with
  | [] => if intp.isEmpty then none else some (digitsVal intp)
  | '.' :: frac =>
      if frac.all Char.isDigit && !(intp.isEmpty && frac.isEmpty) then
        some (digitsVal intp + digitsVal frac / 10 ^ frac.length)
      else none
  | _ => none

/-- Python `float(s)` on a string of digits, dots and minus signs: one
optional leading minus sign, then `parsePos`. -/
def parseStripped : List Char → Option ℚ
  | '-' :: t => (parsePos t).map (fun q => -q)
  | l => parsePos l

/-- `to_number(x)`: `None` stays absent; a string is stripped down to
digits / dot / minus and parsed (empty residue or parse failure → absent);
a number is returned as a float.  (`x.strip()` before the `re.sub` is a
no-op in the model since whitespace is filtered anyway.) -/
def toNumber : Value → Option ℚ
  | Value.empty => none
  | Value.num q => some q
  | Value.text s =>
      let l := s.toList.filter numKeep
      if l.isEmpty then none else parseStripped l

/-! ## Row Comparator -/

/-- Cell status, as rendered by the comparison loop: `normal` is the
fall-through case that assigns no fill. -/
inductive CellStatus where
  | lowest | highest | missing | mismatch | normal
deriving DecidableEq, Repr

/-- The solid fills of the source: green = lowest, red = highest,
yellow = missing, blue = mismatch. -/
inductive Fill where
  | green | red | yellow | blue
deriving DecidableEq, Repr

/-- The `if v is None / elif v == mn / elif v == mx` chain of the
comparison loop, for one cell given the row's min and max. -/
def statusOfVal (mn mx : ℚ) : Option ℚ → CellStatus
  | none => CellStatus.missing
  | some v =>
      if v = mn then CellStatus.lowest
      else if v = mx then CellStatus.highest
      else CellStatus.normal

/-- `present = [v for v in vals if v is not None]`. -/
def presentVals (vals : List (Option ℚ)) : List ℚ := vals.filterMap id

/-- One row of the Lowest/Highest/Missing pass: if no value is present the
loop body is skipped (no cell is touched, modelled as `normal`); otherwise
`mn, mx = min(present), max(present)` and each cell is classified. -/
def classifyRow (vals : List (Option ℚ)) : List CellStatus :=
  match presentVals vals with
  | [] => vals.map (fun _ => CellStatus.normal)
  | p :: ps =>
      vals.map (statusOfVal (ps.foldl min p) (ps.foldl max p))

/-- Fill assigned by the Lowest/Highest/Missing pass (the `normal` case
leaves the cell unfilled). -/
def fillOfStatus : CellStatus → Option Fill
  | CellStatus.missing => some Fill.yellow
  | CellStatus.lowest => some Fill.green
  | CellStatus.highest => some Fill.red
  | CellStatus.mismatch => some Fill.blue
  | CellStatus.normal => none

/-- Read the cell of `row` in (0-based) column `c`; openpyxl yields `None`
beyond a short row. -/
def cellAt (row : List Value) (c : Nat) : Value := row.getD c Value.empty

/-- The mismatch check of one row: fires only when rate, quantity and
amount column lists are all nonempty, the first cell of each normalizes to
a number, and `abs(rate*qty - amount) > 1e-6`. -/
def rowMismatch (rateCols qtyCols amountCols : List Nat)
    (row : List Value) : Bool :=
  match rateCols, qtyCols, amountCols with
  | rc :: _, qc :: _, ac :: _ =>
      match toNumber (cellAt row rc), toNumber (cellAt row qc),
            toNumber (cellAt row ac) with
      | some rv, some qv, some av =>
          decide ((1 : ℚ) / 1000000 < |rv * qv - av|)
      | _, _, _ => false
  | _, _, _ => false

/-- Everything the loop records for one data row: the status of each
Amount-column cell, the resulting fills (with the Mismatch overwrite of the
first Amount cell applied), and the four counter increments. -/
structure RowResult where
  statuses : List CellStatus
  fills : List (Option Fill)
  lo : Nat
  hi : Nat
  mi : Nat
  mism : Nat
deriving DecidableEq, Repr

/-- One iteration of the comparison loop over a data row. -/
def rowProcess (rateCols qtyCols amountCols : List Nat)
    (row : List Value) : RowResult :=
  let vals := amountCols.map (fun c => toNumber (cellAt row c))
  let sts := classifyRow vals
  let m := rowMismatch rateCols qtyCols amountCols row
  { statuses := sts
    fills :=
      if m then (sts.map fillOfStatus).set 0 (some Fill.blue)
      else sts.map fillOfStatus
    lo := sts.count CellStatus.lowest
    hi := sts.count CellStatus.highest
    mi := sts.count CellStatus.missing
    mism := if m then 1 else 0 }

/-! ## Column Classifier and per-sheet pipeline -/

/-- `str(ws.cell(...).value or "").strip()` for a header cell: `None` and
the falsy values `""` and `0` all give the empty string. -/
def headerStr : Value → List Char
  | Value.empty => []
  | Value.text s => trimBoth s.toList
  | Value.num q => if q = 0 then [] else trimBoth (toString q).toList

/-- `AMOUNT_PATTERN.search(h)` of `x.py`: case-insensitive substring search
for `AMOUNT`, `AMT` or `AED`.  (`updateversion.py` additionally matches
`RATE` here; the claims under verification all concern the `x.py`
pattern.) -/
def amountHeader (h : List Char) : Bool :=
  let u := h.map Char.toUpper
  hasSub "AMOUNT".toList u || hasSub "AMT".toList u || hasSub "AED".toList u

/-- `RATE_PATTERN.search(h)`: case-insensitive search for `RATE` or
`UNIT RATE` (the second alternative is subsumed by the first, as in the
source regex). -/
def rateHeader (h : List Char) : Bool :=
  let u := h.map Char.toUpper
  hasSub "RATE".toList u || hasSub "UNIT RATE".toList u

/-- `QTY_PATTERN.search(h)`: case-insensitive search for `QUANTITY` or
`QTY`. -/
def qtyHeader (h : List Char) : Bool :=
  let u := h.map Char.toUpper
  hasSub "QUANTITY".toList u || hasSub "QTY".toList u

/-- `ws.max_column`: the width of the widest row. -/
def gridWidth (grid : List (List Value)) : Nat :=
  grid.foldl (fun a r => max a r.length) 0

/-- Read a worksheet cell (0-based row and column); absent cells are
`None`. -/
def gridCell (grid : List (List Value)) (r c : Nat) : Value :=
  (grid.getD r []).getD c Value.empty

/-- All detected Amount columns of the header row, before any
truncation. -/
def amountColsAll (grid : List (List Value)) (hr : Nat) : List Nat :=
  (List.range (gridWidth grid)).filter
    (fun c => amountHeader (headerStr (gridCell grid hr c)))

/-- All detected Rate columns of the header row. -/
def rateColsOf (grid : List (List Value)) (hr : Nat) : List Nat :=
  (List.range (gridWidth grid)).filter
    (fun c => rateHeader (headerStr (gridCell grid hr c)))

/-- All detected Quantity columns of the header row. -/
def qtyColsOf (grid : List (List Value)) (hr : Nat) : List Nat :=
  (List.range (gridWidth grid)).filter
    (fun c => qtyHeader (headerStr (gridCell grid hr c)))

/-- What the comparison pass records for one sheet: the resolved column
lists, the per-row fills, and the four summary counters. -/
structure SheetOutcome where
  amountCols : List Nat
  rateCols : List Nat
  qtyCols : List Nat
  rowFills : List (List (Option Fill))
  low : Nat
  high : Nat
  miss : Nat
  mism : Nat
deriving DecidableEq, Repr

/-- The comparison pass over the data rows of one sheet, for a resolved
Amount-column list: one `rowProcess` per row strictly below the header,
with the four counters summed. -/
def sheetOutcomeOf (grid : List (List Value)) (hr : Nat)
    (aCols : List Nat) : SheetOutcome :=
  { amountCols := aCols
    rateCols := rateColsOf grid hr
    qtyCols := qtyColsOf grid hr
    rowFills := ((grid.drop (hr + 1)).map
      (rowProcess (rateColsOf grid hr) (qtyColsOf grid hr) aCols)).map
        RowResult.fills
    low := (((grid.drop (hr + 1)).map
      (rowProcess (rateColsOf grid hr) (qtyColsOf grid hr) aCols)).map
        RowResult.lo).sum
    high := (((grid.drop (hr + 1)).map
      (rowProcess (rateColsOf grid hr) (qtyColsOf grid hr) aCols)).map
        RowResult.hi).sum
    miss := (((grid.drop (hr + 1)).map
      (rowProcess (rateColsOf grid hr) (qtyColsOf grid hr) aCols)).map
        RowResult.mi).sum
    mism := (((grid.drop (hr + 1)).map
      (rowProcess (rateColsOf grid hr) (qtyColsOf grid hr) aCols)).map
        RowResult.mism).sum }

/-- The per-sheet body of the Merge & Compare loop: detect the header (no
header → the sheet is skipped), classify columns (no Amount column → the
sheet is skipped), truncate the Amount list to three entries when the
configuration flag is set and more than three were found, then run the row
comparator on every row strictly below the header. -/
def processSheet (flag : Bool) (grid : List (List Value)) :
    Option SheetOutcome :=
  match detectHeaderRow grid with
  | none => none
  | some hr =>
      let aAll := amountColsAll grid hr
      if aAll.isEmpty then none
      else some (sheetOutcomeOf grid hr
        (if flag && decide (3 < aAll.length) then aAll.take 3 else aAll))

/-- The whole annotation pass over the merged workbook: every sheet keeps
its merged content (paired with its comparison outcome, when any), and the
summary table gets one record per sheet that was not skipped. -/
def processBook (flag : Bool) (book : List (String × List (List Value))) :
    List (String × List (List Value) × Option SheetOutcome)
      × List (String × Nat × Nat × Nat × Nat) :=
  (book.map (fun sh => (sh.1, sh.2, processSheet flag sh.2)),
   book.filterMap (fun sh =>
     (processSheet flag sh.2).map
       (fun o => (sh.1, o.low, o.high, o.miss, o.mism))))

/-! ## Table Merger -/

/-- One named column of a contractor table. -/
abbrev Col : Type := String × List Value

/-- `col_vals.isna().all()` / `dropna(axis=1, how='all')`'s test: every
cell of the column is absent. -/
def allAbsent (cells : List Value) : Bool :=
  cells.all (fun v => v = Value.empty)

/-- `str.startswith` on the embedded strings. -/
def strStarts (s p : String) : Bool := leadsWith p.toList s.toList

/-- The `while new_name in df.columns` dedup loop: try `base`, then
`base_1`, `base_2`, … until a name is free.  `base_k` for some
`k ≤ |existing| + 1` is always free, so the fuel suffices. -/
def freshFrom (existing : List String) (base : String) :
    Nat → Nat → String
  | 0, _ => base
  | fuel + 1, k =>
      let cand := base ++ "_" ++ toString k
      if existing.contains cand then freshFrom existing base fuel (k + 1)
      else cand

/-- The renamed column name chosen for a non-empty `Unnamed` column. -/
def freshName (existing : List String) (base : String) : String :=
  if existing.contains base then
    freshFrom existing base (existing.length + 1) 1
  else base

/-- One iteration of the `for c in unnamed_cols` loop: drop the column when
all its cells are absent, otherwise rename it to a fresh name derived from
the source file's stem. -/
def renameOrDrop (stem : String) (cols : List Col) (c : String) : List Col :=
  match cols.find? (fun p => p.1 == c) with
  | none => cols
  | some col =>
      if allAbsent col.2 then cols.filter (fun p => !(p.1 == c))
      else
        let fresh := freshName (cols.map (fun p => p.1)) stem
        cols.map (fun p => if p.1 = c then (fresh, p.2) else p)

/-- The per-source cleanup (`x.py` lines 200–214): handle `Unnamed` columns,
then `df.dropna(axis=1, how='all')`. -/
def cleanTable (stem : String) (cols : List Col) : List Col :=
  let unnamed := (cols.map (fun p => p.1)).filter
    (fun n => strStarts n "Unnamed")
  let step1 := unnamed.foldl (renameOrDrop stem) cols
  step1.filter (fun p => !allAbsent p.2)

/-- The per-source trim/prefix step (`x.py` lines 216–225): the first table
(`idx = 0`) is kept as-is; a later table loses its first two columns when
it has more than two, and every kept column is renamed with the source
stem plus an underscore. -/
def trimSource (stem : String) (idx : Nat) (cols : List Col) : List Col :=
  if idx = 0 then cols
  else
    (if 2 < cols.length then cols.drop 2 else cols).map
      (fun p => (stem ++ "_" ++ p.1, p.2))

/-- `pd.concat(dfs, axis=1)` followed by dropping any column still named
`Unnamed…`: concatenate the trimmed column lists of all sources. -/
def mergeGroup (tables : List (String × List Col)) : List Col :=
  ((tables.enum.map (fun ti => trimSource ti.2.1 ti.1 ti.2.2)).flatten).filter
    (fun p => !strStarts p.1 "Unnamed")

/-- The full per-sheet merge: clean each source's table, then trim, prefix
and concatenate. -/
def mergedOfGroup (sources : List (String × List Col)) : List Col :=
  mergeGroup (sources.map (fun st => (st.1, cleanTable st.1 st.2)))

/-- A five-column first contractor table. -/
def demoCols5 : List Col :=
  [("ITEM", [Value.text "1"]), ("DESCRIPTION", [Value.text "work"]),
   ("RATE", [Value.num 10]), ("QTY", [Value.num 2]),
   ("AMOUNT", [Value.num 20])]

/-- A four-column second contractor table. -/
def demoCols4 : List Col :=
  [("ITEM", [Value.text "1"]), ("DESCRIPTION", [Value.text "work"]),
   ("RATE", [Value.num 11]), ("AMOUNT", [Value.num 22])]

/-- A sheet whose single (header) row declares one item column and five
contractor Amount columns — used to exercise the truncation flag. -/
def fiveAmountGrid : List (List Value) :=
  [[Value.text "ITEM", Value.text "AMT A", Value.text "AMT B",
    Value.text "AMT C", Value.text "AMT D", Value.text "AMT E"]]

/-- Outcome of processing `fiveAmountGrid` with the truncation flag on. -/
def fiveAmountOutT : SheetOutcome :=
  { amountCols := [1, 2, 3], rateCols := [], qtyCols := [], rowFills := []
    low := 0, high := 0, miss := 0, mism := 0 }

/-- Outcome of processing `fiveAmountGrid` with the truncation flag off. -/
def fiveAmountOutF : SheetOutcome :=
  { amountCols := [1, 2, 3, 4, 5], rateCols := [], qtyCols := []
    rowFills := [], low := 0, high := 0, miss := 0, mism := 0 }

/-! ## Theorems -/

/-- C5.  The numeric normalizer is total and pure: absent input stays
absent, numeric input is returned as its (rational-modelled float) value,
text whose stripped residue is empty is absent, every input produces
either absence or a number (no exception path), and the specification's
concrete examples evaluate as stated: `"1,234.50 AED" ↦ 1234.50`,
`"" ↦ absent`, `None ↦ absent`, `42 ↦ 42.0`. -/
theorem toNumber_total_spec :
    toNumber Value.empty = none ∧
    (∀ q : ℚ, toNumber (Value.num q) = some q) ∧
    (∀ s : String, (s.toList.filter numKeep).isEmpty = true →
      toNumber (Value.text s) = none) ∧
    (∀ v : Value, toNumber v = none ∨ ∃ q : ℚ, toNumber v = some q) ∧
    toNumber (Value.text "1,234.50 AED") = some (2469 / 2) ∧
    toNumber (Value.text "") = none ∧
    toNumber (Value.num 42) = some 42 := by
  refine ⟨rfl, fun q => rfl, ?_, ?_, ?_, by decide, by decide⟩
  · intro s hs
    simp only [toNumber]
    rw [if_pos hs]
  · intro v
    cases h : toNumber v with
    | none => exact Or.inl rfl
    | some q => exact Or.inr ⟨q, rfl⟩
  · have h : toNumber (Value.text "1,234.50 AED")
        = some (((1234 : ℕ) : ℚ) + ((50 : ℕ) : ℚ) / 10 ^ 2) := rfl
    rw [h]; norm_num

/-- C5 witness: the general parts of `toNumber_total_spec` instantiated at
a concrete input whose stripped residue is empty. -/
theorem toNumber_total_spec_witness :
    toNumber (Value.text "N/A") = none :=
  toNumber_total_spec.2.2.1 "N/A" (by decide)

/-- Every keyword score is nonnegative. -/
lemma scoreCell_nonneg (v : List Char) : 0 ≤ scoreCell v := by
  unfold scoreCell
  split_ifs <;> omega

/-- A row's cumulative score is nonnegative. -/
lemma rowScore_nonneg (row : List Value) : 0 ≤ rowScore row := by
  unfold rowScore
  have h : ∀ (l : List (List Char)) (acc : Int), 0 ≤ acc →
      0 ≤ l.foldl (fun a v => a + scoreCell v) acc := by
    intro l
    induction l with
    | nil => intro acc hacc; simpa using hacc
    | cons v t ih =>
        intro acc hacc
        exact ih (acc + scoreCell v)
          (add_nonneg hacc (scoreCell_nonneg v))
  exact h _ 0 le_rfl

/-- Invariant of the `detect_header_row` scan: after folding over the
first `n` candidate indices, either no row was eligible (state still
`(none, -1)`), or the state holds the first index attaining the maximal
score among eligible rows seen so far. -/
lemma hdrFold_inv (grid : List (List Value)) (n : Nat) :
    (((List.range n).foldl (hdrStep grid) (none, -1)).1 = none →
      ((List.range n).foldl (hdrStep grid) (none, -1)).2 = -1 ∧
      ∀ j, j < n → rowHasAmount (grid.getD j []) = false) ∧
    (∀ i, ((List.range n).foldl (hdrStep grid) (none, -1)).1 = some i →
      i < n ∧ rowHasAmount (grid.getD i []) = true ∧
      rowScore (grid.getD i [])
        = ((List.range n).foldl (hdrStep grid) (none, -1)).2 ∧
      ∀ j, j < n → rowHasAmount (grid.getD j []) = true →
        rowScore (grid.getD j []) ≤ rowScore (grid.getD i []) ∧
        (rowScore (grid.getD j []) = rowScore (grid.getD i []) → i ≤ j)) := by
  induction n with
  | zero =>
      constructor
      · intro _; exact ⟨rfl, by omega⟩
      · intro i h
        simp at h
  | succ n ih =>
      rw [List.range_succ, List.foldl_append]
      set st := (List.range n).foldl (hdrStep grid) (none, -1) with hst
      simp only [List.foldl_cons, List.foldl_nil]
      unfold hdrStep
      by_cases hcond : (rowHasAmount (grid.getD n []) &&
          decide (st.2 < rowScore (grid.getD n []))) = true
      · simp only [hcond, if_pos]
        rw [Bool.and_eq_true, decide_eq_true_eq] at hcond
        constructor
        · intro h; simp at h
        · intro i hi
          have hin : i = n := by simpa using hi.symm
          subst hin
          refine ⟨Nat.lt_succ_self i, hcond.1, rfl, ?_⟩
          intro j hj hje
          rcases Nat.lt_succ_iff_lt_or_eq.mp hj with hj' | hj'
          · -- j strictly earlier: its score is at most the old best,
            -- which is strictly below the new score
            have hjs : rowScore (grid.getD j []) ≤ st.2 := by
              cases hb : st.1 with
              | none =>
                  have := (ih.1 hb).2 j hj'
                  rw [this] at hje; cases hje
              | some i₀ =>
                  have h₀ := ih.2 i₀ hb
                  have := (h₀.2.2.2 j hj' hje).1
                  calc rowScore (grid.getD j [])
                      ≤ rowScore (grid.getD i₀ []) := this
                    _ = st.2 := h₀.2.2.1
            constructor
            · exact le_of_lt (lt_of_le_of_lt hjs hcond.2)
            · intro heq
              exfalso
              have := lt_of_le_of_lt hjs hcond.2
              omega
          · subst hj'; exact ⟨le_refl _, fun _ => le_refl _⟩
      · simp only [hcond, if_neg, Bool.not_eq_true]
        rw [Bool.and_eq_true] at hcond
        push_neg at hcond
        constructor
        · intro hb
          obtain ⟨hs, hall⟩ := ih.1 hb
          refine ⟨hs, ?_⟩
          intro j hj
          rcases Nat.lt_succ_iff_lt_or_eq.mp hj with hj' | hj'
          · exact hall j hj'
          · subst hj'
            by_contra he
            rw [Bool.not_eq_false] at he
            have hd := hcond he
            simp only [ne_eq, decide_eq_true_eq] at hd
            rw [hs] at hd
            have := rowScore_nonneg (grid.getD j [])
            omega
        · intro i hi
          obtain ⟨hlt, helig, hsc, hmax⟩ := ih.2 i hi
          refine ⟨Nat.lt_succ_of_lt hlt, helig, hsc, ?_⟩
          intro j hj hje
          rcases Nat.lt_succ_iff_lt_or_eq.mp hj with hj' | hj'
          · exact hmax j hj' hje
          · subst hj'
            have hd := hcond hje
            simp only [ne_eq, decide_eq_true_eq] at hd
            push_neg at hd
            rw [← hsc] at hd
            exact ⟨hd, fun _ => le_of_lt hlt⟩

/-- C3.  The header locator scans at most the first `min(30, length)` rows
and returns the lowest-index row attaining the strictly highest keyword
score among rows with at least one amount-pattern match; it returns `none`
exactly when no scanned row has an amount-pattern match; and on the
specification's example table it returns index 1. -/
theorem detectHeaderRow_argmax (grid : List (List Value)) :
    (detectHeaderRow grid = none ↔
      ∀ j, j < min HEADER_SEARCH_ROWS grid.length →
        rowHasAmount (grid.getD j []) = false) ∧
    (∀ i, detectHeaderRow grid = some i →
      i < min HEADER_SEARCH_ROWS grid.length ∧
      rowHasAmount (grid.getD i []) = true ∧
      ∀ j, j < min HEADER_SEARCH_ROWS grid.length →
        rowHasAmount (grid.getD j []) = true →
        rowScore (grid.getD j []) ≤ rowScore (grid.getD i []) ∧
        (rowScore (grid.getD j []) = rowScore (grid.getD i []) → i ≤ j)) ∧
    detectHeaderRow demoGrid = some 1 := by
  have hinv := hdrFold_inv grid (min HEADER_SEARCH_ROWS grid.length)
  refine ⟨⟨?_, ?_⟩, ?_, by decide⟩
  · intro h
    exact (hinv.1 h).2
  · intro hall
    cases hd : detectHeaderRow grid with
    | none => rfl
    | some i =>
        obtain ⟨hlt, helig, _⟩ := hinv.2 i hd
        rw [hall i hlt] at helig
        cases helig
  · intro i hi
    obtain ⟨hlt, helig, _, hmax⟩ := hinv.2 i hi
    exact ⟨hlt, helig, hmax⟩

/-- C3 witness: the locator's verdict on the example table, extracted by
applying the argmax theorem at the concrete grid. -/
theorem detectHeaderRow_argmax_witness :
    rowHasAmount (demoGrid.getD 1 []) = true :=
  (((detectHeaderRow_argmax demoGrid).2.1) 1 (by decide)).2.1

/-- `min(present)` as computed by the loop is a lower bound. -/
lemma foldlMin_le : ∀ (ps : List ℚ) (p : ℚ), ∀ x ∈ p :: ps,
    ps.foldl min p ≤ x := by
  intro ps
  induction ps with
  | nil =>
      intro p x hx
      rw [List.mem_singleton] at hx
      simp [hx]
  | cons q t ih =>
      intro p x hx
      simp only [List.foldl_cons]
      rcases List.mem_cons.mp hx with h | hx'
      · subst h
        exact le_trans (ih (min x q) (min x q) (List.mem_cons_self _ _))
          (min_le_left _ _)
      rcases List.mem_cons.mp hx' with h | hx''
      · subst h
        exact le_trans (ih (min p x) (min p x) (List.mem_cons_self _ _))
          (min_le_right _ _)
      · exact ih (min p q) x (List.mem_cons_of_mem _ hx'')

/-- `min(present)` is attained by some present value. -/
lemma foldlMin_mem : ∀ (ps : List ℚ) (p : ℚ), ps.foldl min p ∈ p :: ps := by
  intro ps
  induction ps with
  | nil => intro p; simp
  | cons q t ih =>
      intro p
      simp only [List.foldl_cons]
      rcases List.mem_cons.mp (ih (min p q)) with h | h
      · rcases min_choice p q with hm | hm
        · rw [h, hm]; exact List.mem_cons_self _ _
        · rw [h, hm]
          exact List.mem_cons_of_mem _ (List.mem_cons_self _ _)
      · exact List.mem_cons_of_mem _ (List.mem_cons_of_mem _ h)

/-- `max(present)` as computed by the loop is an upper bound. -/
lemma le_foldlMax : ∀ (ps : List ℚ) (p : ℚ), ∀ x ∈ p :: ps,
    x ≤ ps.foldl max p := by
  intro ps
  induction ps with
  | nil =>
      intro p x hx
      rw [List.mem_singleton] at hx
      simp [hx]
  | cons q t ih =>
      intro p x hx
      simp only [List.foldl_cons]
      rcases List.mem_cons.mp hx with h | hx'
      · subst h
        exact le_trans (le_max_left _ _)
          (ih (max x q) (max x q) (List.mem_cons_self _ _))
      rcases List.mem_cons.mp hx' with h | hx''
      · subst h
        exact le_trans (le_max_right _ _)
          (ih (max p x) (max p x) (List.mem_cons_self _ _))
      · exact ih (max p q) x (List.mem_cons_of_mem _ hx'')

/-- `max(present)` is attained by some present value. -/
lemma foldlMax_mem : ∀ (ps : List ℚ) (p : ℚ), ps.foldl max p ∈ p :: ps := by
  intro ps
  induction ps with
  | nil => intro p; simp
  | cons q t ih =>
      intro p
      simp only [List.foldl_cons]
      rcases List.mem_cons.mp (ih (max p q)) with h | h
      · rcases max_choice p q with hm | hm
        · rw [h, hm]; exact List.mem_cons_self _ _
        · rw [h, hm]
          exact List.mem_cons_of_mem _ (List.mem_cons_self _ _)
      · exact List.mem_cons_of_mem _ (List.mem_cons_of_mem _ h)

/-- When some value is present, `classifyRow` maps `statusOfVal` over the
row with the computed min and max. -/
lemma classifyRow_eq_map (vals : List (Option ℚ)) (p : ℚ) (ps : List ℚ)
    (h : presentVals vals = p :: ps) :
    classifyRow vals
      = vals.map (statusOfVal (ps.foldl min p) (ps.foldl max p)) := by
  unfold classifyRow
  rw [h]

/-- A value sitting in the row is a member of the present values. -/
lemma mem_presentVals_of_get (vals : List (Option ℚ)) (j : ℕ) (x : ℚ)
    (hv : vals.get? j = some (some x)) : x ∈ presentVals vals := by
  unfold presentVals
  rw [List.mem_filterMap]
  exact ⟨some x, List.get?_mem hv, rfl⟩

/-- C1.  For a data row with at least one present normalized Amount value,
each Amount cell's status is: Missing exactly when its value is absent;
Lowest exactly when its value is a lower bound of the present values (it
equals the row minimum); Highest exactly when it is an upper bound but not
a lower bound (it equals the row maximum without equalling the minimum,
the `elif` order); Normal exactly when it is strictly between; and when
all present values are equal every present cell is Lowest and no cell is
Highest. -/
theorem classifyRow_spec (vals : List (Option ℚ))
    (hp : presentVals vals ≠ []) (j : ℕ) (v : Option ℚ)
    (hv : vals.get? j = some v) :
    ((classifyRow vals).get? j = some CellStatus.missing ↔ v = none) ∧
    (∀ x : ℚ, v = some x →
      ((classifyRow vals).get? j = some CellStatus.lowest ↔
        ∀ y ∈ presentVals vals, x ≤ y)) ∧
    (∀ x : ℚ, v = some x →
      ((classifyRow vals).get? j = some CellStatus.highest ↔
        (∀ y ∈ presentVals vals, y ≤ x) ∧ ∃ y ∈ presentVals vals, y < x)) ∧
    (∀ x : ℚ, v = some x →
      ((classifyRow vals).get? j = some CellStatus.normal ↔
        (∃ y ∈ presentVals vals, y < x) ∧ ∃ y ∈ presentVals vals, x < y)) ∧
    ((∀ y ∈ presentVals vals, ∀ z ∈ presentVals vals, y = z) →
      (v ≠ none → (classifyRow vals).get? j = some CellStatus.lowest) ∧
      (classifyRow vals).get? j ≠ some CellStatus.highest) := by
  obtain ⟨p, ps, hpv⟩ : ∃ p ps, presentVals vals = p :: ps := by
    cases h : presentVals vals with
    | nil => exact absurd h hp
    | cons p ps => exact ⟨p, ps, rfl⟩
  set mn := ps.foldl min p with hmn
  set mx := ps.foldl max p with hmx
  have hmnle : ∀ y ∈ presentVals vals, mn ≤ y := by
    rw [hpv]; exact foldlMin_le ps p
  have hmnmem : mn ∈ presentVals vals := by
    rw [hpv]; exact foldlMin_mem ps p
  have hmxle : ∀ y ∈ presentVals vals, y ≤ mx := by
    rw [hpv]; exact le_foldlMax ps p
  have hmxmem : mx ∈ presentVals vals := by
    rw [hpv]; exact foldlMax_mem ps p
  have hg : (classifyRow vals).get? j = some (statusOfVal mn mx v) := by
    rw [classifyRow_eq_map vals p ps hpv, List.get?_map, hv]
    rfl
  rw [hg]
  cases v with
  | none =>
      refine ⟨by simp [statusOfVal], ?_, ?_, ?_, ?_⟩
      · intro x hx; cases hx
      · intro x hx; cases hx
      · intro x hx; cases hx
      · intro _
        constructor
        · intro h; exact absurd rfl h
        · simp [statusOfVal]
  | some x =>
      have hxmem : x ∈ presentVals vals := mem_presentVals_of_get vals j x hv
      have hstat : statusOfVal mn mx (some x)
          = if x = mn then CellStatus.lowest
            else if x = mx then CellStatus.highest
            else CellStatus.normal := rfl
      rw [hstat]
      by_cases hxmn : x = mn
      · rw [if_pos hxmn]
        refine ⟨by simp, ?_, ?_, ?_, ?_⟩
        · intro x' hx'
          rw [Option.some_inj] at hx'; subst hx'
          simp only [Option.some_inj]
          constructor
          · intro _ y hy
            rw [hxmn]; exact hmnle y hy
          · intro _; trivial
        · intro x' hx'
          rw [Option.some_inj] at hx'; subst hx'
          simp only [Option.some_inj]
          constructor
          · intro h; cases h
          · rintro ⟨_, y, hy, hylt⟩
            exfalso
            have := hmnle y hy
            rw [← hxmn] at this
            exact absurd hylt (not_lt.mpr this)
        · intro x' hx'
          rw [Option.some_inj] at hx'; subst hx'
          simp only [Option.some_inj]
          constructor
          · intro h; cases h
          · rintro ⟨⟨y, hy, hylt⟩, _⟩
            exfalso
            have := hmnle y hy
            rw [← hxmn] at this
            exact absurd hylt (not_lt.mpr this)
        · intro _; exact ⟨fun _ => rfl, by simp⟩
      · rw [if_neg hxmn]
        have hmnltx : mn < x :=
          lt_of_le_of_ne (hmnle x hxmem) (fun h => hxmn h.symm)
        by_cases hxmx : x = mx
        · rw [if_pos hxmx]
          refine ⟨by simp, ?_, ?_, ?_, ?_⟩
          · intro x' hx'
            rw [Option.some_inj] at hx'; subst hx'
            simp only [Option.some_inj]
            constructor
            · intro h; cases h
            · intro hlow
              exact absurd (le_antisymm (hmnle x hxmem) (hlow mn hmnmem))
                (fun h => hxmn h.symm)
          · intro x' hx'
            rw [Option.some_inj] at hx'; subst hx'
            simp only [Option.some_inj]
            constructor
            · intro _
              refine ⟨?_, mn, hmnmem, hmnltx⟩
              intro y hy
              rw [hxmx]; exact hmxle y hy
            · intro _; trivial
          · intro x' hx'
            rw [Option.some_inj] at hx'; subst hx'
            simp only [Option.some_inj]
            constructor
            · intro h; cases h
            · rintro ⟨_, y, hy, hxy⟩
              exfalso
              have := hmxle y hy
              rw [← hxmx] at this
              exact absurd hxy (not_lt.mpr this)
          · intro hall
            exfalso
            exact hxmn (hall x hxmem mn hmnmem)
        · rw [if_neg hxmx]
          have hxltmx : x < mx :=
            lt_of_le_of_ne (hmxle x hxmem) hxmx
          refine ⟨by simp, ?_, ?_, ?_, ?_⟩
          · intro x' hx'
            rw [Option.some_inj] at hx'; subst hx'
            simp only [Option.some_inj]
            constructor
            · intro h; cases h
            · intro hlow
              exact absurd (le_antisymm (hmnle x hxmem) (hlow mn hmnmem))
                (fun h => hxmn h.symm)
          · intro x' hx'
            rw [Option.some_inj] at hx'; subst hx'
            simp only [Option.some_inj]
            constructor
            · intro h; cases h
            · rintro ⟨hub, _⟩
              exact absurd (le_antisymm (hmxle x hxmem) (hub mx hmxmem))
                hxmx
          · intro x' hx'
            rw [Option.some_inj] at hx'; subst hx'
            simp only [Option.some_inj]
            constructor
            · intro _
              exact ⟨⟨mn, hmnmem, hmnltx⟩, mx, hmxmem, hxltmx⟩
            · intro _; trivial
          · intro hall
            exfalso
            exact hxmn (hall x hxmem mn hmnmem)

/-- C1 witness: the characterization applied to the concrete row
`[1, absent, 5]`, yielding the statuses of its first two cells. -/
theorem classifyRow_spec_witness :
    (classifyRow [some 1, none, some 5]).get? 0 = some CellStatus.lowest ∧
    (classifyRow [some 1, none, some 5]).get? 1
      = some CellStatus.missing := by
  constructor
  · have h := classifyRow_spec [some 1, none, some 5] (by decide) 0
      (some 1) rfl
    refine (h.2.1 1 rfl).mpr ?_
    intro y hy
    have : y = 1 ∨ y = 5 := by
      have hpv : presentVals [some 1, none, some (5 : ℚ)] = [1, 5] := rfl
      rw [hpv] at hy
      simpa using hy
    rcases this with h1 | h5
    · rw [h1]
    · rw [h5]; norm_num
  · have h := classifyRow_spec [some 1, none, some 5] (by decide) 1
      none rfl
    exact h.1.mpr rfl

/-- C2 counterexample: in the row `[1, 1, 5]` at least two distinct
present values exist (so the minimum is not the maximum), yet two cells —
not exactly one — are marked Lowest, refuting the claim as stated. -/
theorem classifyRow_unique_lowest_cex :
    (∃ y ∈ presentVals [some 1, some 1, some (5 : ℚ)],
      ∃ z ∈ presentVals [some 1, some 1, some (5 : ℚ)], y ≠ z) ∧
    (classifyRow [some 1, some 1, some (5 : ℚ)]).count CellStatus.lowest
      = 2 := by
  constructor
  · refine ⟨1, by decide, 5, by decide, by norm_num⟩
  · decide

/-- C2 (amended).  For every row with at least one present Amount value:
some cell is marked Lowest; the cells marked Lowest are exactly the
present cells equal to the row minimum — so when at least two distinct
present values exist, at least one present cell is marked Lowest and at
least one present cell is not (but several can be, if the minimum is
attained more than once); and when all present values are equal, every
present cell is marked Lowest and none Highest. -/
theorem classifyRow_lowest_marking (vals : List (Option ℚ))
    (hp : presentVals vals ≠ []) :
    (∃ j, (classifyRow vals).get? j = some CellStatus.lowest) ∧
    (∀ j x, vals.get? j = some (some x) →
      ((classifyRow vals).get? j = some CellStatus.lowest ↔
        ∀ y ∈ presentVals vals, x ≤ y)) ∧
    ((∃ y ∈ presentVals vals, ∃ z ∈ presentVals vals, y ≠ z) →
      ∃ j x, vals.get? j = some (some x) ∧
        (classifyRow vals).get? j ≠ some CellStatus.lowest) ∧
    ((∀ y ∈ presentVals vals, ∀ z ∈ presentVals vals, y = z) →
      (∀ j x, vals.get? j = some (some x) →
        (classifyRow vals).get? j = some CellStatus.lowest) ∧
      ∀ j, (classifyRow vals).get? j ≠ some CellStatus.highest) := by
  obtain ⟨p, ps, hpv⟩ : ∃ p ps, presentVals vals = p :: ps := by
    cases h : presentVals vals with
    | nil => exact absurd h hp
    | cons p ps => exact ⟨p, ps, rfl⟩
  have hmnle : ∀ y ∈ presentVals vals, ps.foldl min p ≤ y := by
    rw [hpv]; exact foldlMin_le ps p
  have hmnmem : ps.foldl min p ∈ presentVals vals := by
    rw [hpv]; exact foldlMin_mem ps p
  have hmxle : ∀ y ∈ presentVals vals, y ≤ ps.foldl max p := by
    rw [hpv]; exact le_foldlMax ps p
  have hmxmem : ps.foldl max p ∈ presentVals vals := by
    rw [hpv]; exact foldlMax_mem ps p
  have hget : ∀ x ∈ presentVals vals, ∃ j,
      vals.get? j = some (some x) := by
    intro x hx
    have : some x ∈ vals := by
      unfold presentVals at hx
      rw [List.mem_filterMap] at hx
      obtain ⟨a, ha, hax⟩ := hx
      simp only [id_eq] at hax
      subst hax
      exact ha
    exact List.mem_iff_get?.mp this
  refine ⟨?_, ?_, ?_, ?_⟩
  · obtain ⟨j, hj⟩ := hget _ hmnmem
    refine ⟨j, ?_⟩
    exact ((classifyRow_spec vals hp j _ hj).2.1 _ rfl).mpr hmnle
  · intro j x hv
    exact (classifyRow_spec vals hp j _ hv).2.1 x rfl
  · rintro ⟨y, hy, z, hz, hyz⟩
    obtain ⟨j, hj⟩ := hget _ hmxmem
    refine ⟨j, _, hj, ?_⟩
    intro hlow
    have hlb := ((classifyRow_spec vals hp j _ hj).2.1 _ rfl).mp hlow
    have h1 : y = ps.foldl max p := le_antisymm (hmxle y hy) (hlb y hy)
    have h2 : z = ps.foldl max p := le_antisymm (hmxle z hz) (hlb z hz)
    exact hyz (h1.trans h2.symm)
  · intro hall
    constructor
    · intro j x hv
      have hxmem : x ∈ presentVals vals := mem_presentVals_of_get vals j x hv
      refine ((classifyRow_spec vals hp j _ hv).2.1 x rfl).mpr ?_
      intro y hy
      rw [hall x hxmem y hy]
    · intro j
      cases hv : vals.get? j with
      | none =>
          rw [classifyRow_eq_map vals p ps hpv, List.get?_map, hv]
          simp
      | some v =>
          exact ((classifyRow_spec vals hp j v hv).2.2.2.2 hall).2

/-- C2 witness: the amended marking theorem applied to the concrete row
`[1, 2]` yields a Lowest cell. -/
theorem classifyRow_lowest_marking_witness :
    ∃ j, (classifyRow [some 1, some (2 : ℚ)]).get? j
      = some CellStatus.lowest :=
  (classifyRow_lowest_marking [some 1, some 2] (by decide)).1

/-- The statuses recorded for a row are the classification of its Amount
values. -/
lemma rowProcess_statuses (r q a : List Nat) (row : List Value) :
    (rowProcess r q a row).statuses
      = classifyRow (a.map (fun c => toNumber (cellAt row c))) := rfl

/-- The mismatch counter increment of a row. -/
lemma rowProcess_mism (r q a : List Nat) (row : List Value) :
    (rowProcess r q a row).mism
      = if rowMismatch r q a row then 1 else 0 := rfl

/-- The fills of a row: classification fills, with the first Amount cell
overwritten in blue when the mismatch check fires. -/
lemma rowProcess_fills (r q a : List Nat) (row : List Value) :
    (rowProcess r q a row).fills
      = (if rowMismatch r q a row then
          ((rowProcess r q a row).statuses.map fillOfStatus).set 0
            (some Fill.blue)
        else (rowProcess r q a row).statuses.map fillOfStatus) := rfl

/-- The three classification counters of a row come from its statuses. -/
lemma rowProcess_counts (r q a : List Nat) (row : List Value) :
    (rowProcess r q a row).lo
        = (rowProcess r q a row).statuses.count CellStatus.lowest ∧
    (rowProcess r q a row).hi
        = (rowProcess r q a row).statuses.count CellStatus.highest ∧
    (rowProcess r q a row).mi
        = (rowProcess r q a row).statuses.count CellStatus.missing :=
  ⟨rfl, rfl, rfl⟩

/-- The guarded mismatch test, with the three column heads resolved. -/
lemma rowMismatch_eq (rCols qCols aCols : List Nat) (row : List Value)
    (r0 q0 a0 : Nat) (hr : rCols.head? = some r0)
    (hq : qCols.head? = some q0) (ha : aCols.head? = some a0) :
    rowMismatch rCols qCols aCols row
      = (match toNumber (cellAt row r0), toNumber (cellAt row q0),
               toNumber (cellAt row a0) with
        | some rv, some qv, some av =>
            decide ((1 : ℚ) / 1000000 < |rv * qv - av|)
        | _, _, _ => false) := by
  obtain ⟨rt, hrt⟩ : ∃ t, rCols = r0 :: t := by
    cases rCols with
    | nil => cases hr
    | cons a t =>
        rw [List.head?_cons, Option.some_inj] at hr
        exact ⟨t, by rw [hr]⟩
  obtain ⟨qt, hqt⟩ : ∃ t, qCols = q0 :: t := by
    cases qCols with
    | nil => cases hq
    | cons a t =>
        rw [List.head?_cons, Option.some_inj] at hq
        exact ⟨t, by rw [hq]⟩
  obtain ⟨atl, hatl⟩ : ∃ t, aCols = a0 :: t := by
    cases aCols with
    | nil => cases ha
    | cons a t =>
        rw [List.head?_cons, Option.some_inj] at ha
        exact ⟨t, by rw [ha]⟩
  subst hrt
  subst hqt
  subst hatl
  rfl

/-- A row's status list is as long as its Amount-column list. -/
lemma classifyRow_length (vals : List (Option ℚ)) :
    (classifyRow vals).length = vals.length := by
  unfold classifyRow
  cases h : presentVals vals <;> simp

/-- Setting position 0 of a nonempty list puts the value there. -/
lemma get?_set_zero {α : Type} (l : List α) (x : α) (h : l ≠ []) :
    (l.set 0 x).get? 0 = some x := by
  cases l with
  | nil => exact absurd rfl h
  | cons a t => rfl

/-- Classification never produces the Mismatch status: that status only
exists as the blue overwrite of a fill. -/
lemma classifyRow_no_mismatch (vals : List (Option ℚ)) :
    ∀ s ∈ classifyRow vals, s ≠ CellStatus.mismatch := by
  intro s hs
  unfold classifyRow at hs
  cases h : presentVals vals with
  | nil =>
      rw [h] at hs
      rw [List.mem_map] at hs
      obtain ⟨_, _, hr⟩ := hs
      rw [← hr]
      simp
  | cons p ps =>
      rw [h] at hs
      rw [List.mem_map] at hs
      obtain ⟨v, _, hr⟩ := hs
      rw [← hr]
      cases v with
      | none => simp [statusOfVal]
      | some x =>
          simp only [statusOfVal]
          split_ifs <;> simp

/-- C4.  For a data row in a sheet with at least one Rate, one Quantity
and one Amount column: when the first cell of each normalizes to a number
and `|rate*qty - amount| > 1e-6` the row's first Amount cell is filled
blue (Mismatch) and the mismatch counter increments, while the fills are
untouched otherwise (no overwrite) when the difference is within
tolerance or any of the three values is absent; and in every case the
Lowest/Highest/Missing counters come from the classification pass alone,
unaffected by the overwrite. -/
theorem mismatch_check_spec (rCols qCols aCols : List Nat)
    (row : List Value) (r0 q0 a0 : Nat) (hr : rCols.head? = some r0)
    (hq : qCols.head? = some q0) (ha : aCols.head? = some a0) :
    (∀ rv qv av : ℚ, toNumber (cellAt row r0) = some rv →
      toNumber (cellAt row q0) = some qv →
      toNumber (cellAt row a0) = some av →
      ((1 : ℚ) / 1000000 < |rv * qv - av| →
        (rowProcess rCols qCols aCols row).mism = 1 ∧
        (rowProcess rCols qCols aCols row).fills.get? 0
          = some (some Fill.blue)) ∧
      (|rv * qv - av| ≤ 1 / 1000000 →
        (rowProcess rCols qCols aCols row).mism = 0 ∧
        (rowProcess rCols qCols aCols row).fills
          = (rowProcess rCols qCols aCols row).statuses.map fillOfStatus)) ∧
    ((toNumber (cellAt row r0) = none ∨ toNumber (cellAt row q0) = none ∨
        toNumber (cellAt row a0) = none) →
      (rowProcess rCols qCols aCols row).mism = 0 ∧
      (rowProcess rCols qCols aCols row).fills
        = (rowProcess rCols qCols aCols row).statuses.map fillOfStatus) ∧
    ((rowProcess rCols qCols aCols row).lo
        = (rowProcess rCols qCols aCols row).statuses.count
            CellStatus.lowest ∧
      (rowProcess rCols qCols aCols row).hi
        = (rowProcess rCols qCols aCols row).statuses.count
            CellStatus.highest ∧
      (rowProcess rCols qCols aCols row).mi
        = (rowProcess rCols qCols aCols row).statuses.count
            CellStatus.missing) := by
  have hfilllen :
      ((rowProcess rCols qCols aCols row).statuses.map fillOfStatus) ≠ [] := by
    rw [rowProcess_statuses]
    intro hnil
    have := congrArg List.length hnil
    rw [List.length_map, classifyRow_length, List.length_map] at this
    cases hac : aCols with
    | nil => rw [hac] at ha; cases ha
    | cons a t => rw [hac] at this; cases this
  refine ⟨?_, ?_, rowProcess_counts rCols qCols aCols row⟩
  · intro rv qv av hrv hqv hav
    have hmeq := rowMismatch_eq rCols qCols aCols row r0 q0 a0 hr hq ha
    rw [hrv, hqv, hav] at hmeq
    constructor
    · intro htol
      have hm : rowMismatch rCols qCols aCols row = true := by
        rw [hmeq]
        simpa using htol
      refine ⟨by rw [rowProcess_mism, hm]; rfl, ?_⟩
      rw [rowProcess_fills, hm, if_pos rfl]
      exact get?_set_zero _ _ hfilllen
    · intro htol
      have hm : rowMismatch rCols qCols aCols row = false := by
        rw [hmeq]
        simpa using not_lt.mpr htol
      exact ⟨by rw [rowProcess_mism, hm]; rfl,
        by rw [rowProcess_fills, hm, if_neg (by simp)]⟩
  · intro habs
    have hmeq := rowMismatch_eq rCols qCols aCols row r0 q0 a0 hr hq ha
    have hm : rowMismatch rCols qCols aCols row = false := by
      rcases habs with h | h | h <;> rw [hmeq, h] <;>
        cases toNumber (cellAt row r0) <;>
        cases toNumber (cellAt row q0) <;>
        cases toNumber (cellAt row a0) <;> rfl
    exact ⟨by rw [rowProcess_mism, hm]; rfl,
      by rw [rowProcess_fills, hm, if_neg (by simp)]⟩

/-- C4 witness: the mismatch theorem applied to the specification's
example row Rate=10, Quantity=2, Amount=21 (difference 1 exceeds the
tolerance), and to Rate=10, Quantity=2, Amount=20.0000001 (within
tolerance). -/
theorem mismatch_check_spec_witness :
    ((rowProcess [0] [1] [2] [Value.num 10, Value.num 2,
        Value.num 21]).mism = 1 ∧
      (rowProcess [0] [1] [2] [Value.num 10, Value.num 2,
        Value.num 21]).fills.get? 0 = some (some Fill.blue)) ∧
    (rowProcess [0] [1] [2] [Value.num 10, Value.num 2,
      Value.num (200000001 / 10000000)]).mism = 0 := by
  constructor
  · exact ((mismatch_check_spec [0] [1] [2]
      [Value.num 10, Value.num 2, Value.num 21] 0 1 2 rfl rfl rfl).1
        10 2 21 rfl rfl rfl).1 (by norm_num)
  · exact (((mismatch_check_spec [0] [1] [2]
      [Value.num 10, Value.num 2, Value.num (200000001 / 10000000)]
        0 1 2 rfl rfl rfl).1
        10 2 (200000001 / 10000000) rfl rfl rfl).2 (by
          rw [abs_le]; norm_num)).1

/-- The mismatch check cannot fire when any of the three column lists is
empty. -/
lemma rowMismatch_false_of_none (rCols qCols aCols : List Nat)
    (row : List Value)
    (h : rCols.head? = none ∨ qCols.head? = none ∨ aCols.head? = none) :
    rowMismatch rCols qCols aCols row = false := by
  rcases h with h | h | h
  · have hnil : rCols = [] := by
      cases rCols with
      | nil => rfl
      | cons a t => cases h
    subst hnil; rfl
  · have hnil : qCols = [] := by
      cases qCols with
      | nil => rfl
      | cons a t => cases h
    subst hnil
    cases rCols <;> rfl
  · have hnil : aCols = [] := by
      cases aCols with
      | nil => rfl
      | cons a t => cases h
    subst hnil
    cases rCols with
    | nil => rfl
    | cons r rt => cases qCols <;> rfl

/-- C10.  A blue (Mismatch) fill on the first Amount cell implies that the
cell's own normalized value is present: its classification status exists,
is not Missing, and its pre-overwrite fill was not yellow — Mismatch only
ever replaces a Lowest, Highest or Normal fill. -/
theorem mismatch_overwrite_inv (rCols qCols aCols : List Nat)
    (row : List Value)
    (h : (rowProcess rCols qCols aCols row).fills.get? 0
      = some (some Fill.blue)) :
    ∃ a0, aCols.head? = some a0 ∧
      (∃ va : ℚ, toNumber (cellAt row a0) = some va) ∧
      ∃ s, (rowProcess rCols qCols aCols row).statuses.get? 0 = some s ∧
        s ≠ CellStatus.missing ∧ fillOfStatus s ≠ some Fill.yellow := by
  by_cases hm : rowMismatch rCols qCols aCols row = true
  · obtain ⟨r0, hra⟩ : ∃ r0, rCols.head? = some r0 := by
      cases hrr : rCols.head? with
      | none =>
          exfalso
          rw [rowMismatch_false_of_none rCols qCols aCols row
            (Or.inl hrr)] at hm
          cases hm
      | some r0 => exact ⟨r0, rfl⟩
    obtain ⟨q0, hqa⟩ : ∃ q0, qCols.head? = some q0 := by
      cases hqq : qCols.head? with
      | none =>
          exfalso
          rw [rowMismatch_false_of_none rCols qCols aCols row
            (Or.inr (Or.inl hqq))] at hm
          cases hm
      | some q0 => exact ⟨q0, rfl⟩
    obtain ⟨a0, haa⟩ : ∃ a0, aCols.head? = some a0 := by
      cases haq : aCols.head? with
      | none =>
          exfalso
          rw [rowMismatch_false_of_none rCols qCols aCols row
            (Or.inr (Or.inr haq))] at hm
          cases hm
      | some a0 => exact ⟨a0, rfl⟩
    rw [rowMismatch_eq rCols qCols aCols row r0 q0 a0 hra hqa haa] at hm
    obtain ⟨va, hva⟩ : ∃ va : ℚ, toNumber (cellAt row a0) = some va := by
      cases hav : toNumber (cellAt row a0) with
      | none =>
          exfalso
          rw [hav] at hm
          have hf : (match toNumber (cellAt row r0),
              toNumber (cellAt row q0), (none : Option ℚ) with
            | some rv, some qv, some av =>
                decide ((1 : ℚ) / 1000000 < |rv * qv - av|)
            | _, _, _ => false) = false := by
            cases toNumber (cellAt row r0) with
            | none => rfl
            | some rv => cases toNumber (cellAt row q0) <;> rfl
          rw [hf] at hm
          cases hm
      | some va => exact ⟨va, rfl⟩
    obtain ⟨atail, hat⟩ : ∃ t, aCols = a0 :: t := by
      cases hc : aCols with
      | nil => rw [hc] at haa; cases haa
      | cons hd t =>
          rw [hc] at haa
          rw [List.head?_cons, Option.some_inj] at haa
          exact ⟨t, by rw [haa]⟩
    refine ⟨a0, haa, ⟨va, hva⟩, ?_⟩
    rw [rowProcess_statuses, hat]
    set vals := (a0 :: atail).map (fun c => toNumber (cellAt row c))
      with hvals
    have hv0 : vals.get? 0 = some (some va) := by
      rw [hvals]
      simp [hva]
    have hp : presentVals vals ≠ [] := by
      rw [hvals]
      simp only [List.map_cons, presentVals, hva, List.filterMap_cons]
      intro hcon
      cases hcon
    obtain ⟨p, ps, hpv⟩ : ∃ p ps, presentVals vals = p :: ps := by
      cases hc : presentVals vals with
      | nil => exact absurd hc hp
      | cons p ps => exact ⟨p, ps, rfl⟩
    rw [classifyRow_eq_map vals p ps hpv, List.get?_map, hv0]
    refine ⟨statusOfVal (ps.foldl min p) (ps.foldl max p) (some va),
      rfl, ?_, ?_⟩ <;>
      · simp only [statusOfVal]
        split_ifs <;> simp [fillOfStatus]
  · exfalso
    rw [rowProcess_fills,
      if_neg (by rw [Bool.not_eq_true] at hm; rw [hm]; simp),
      List.get?_map] at h
    obtain ⟨s, hs, hfill⟩ := Option.map_eq_some'.mp h
    have hsmem : s ∈ (rowProcess rCols qCols aCols row).statuses :=
      List.get?_mem hs
    rw [rowProcess_statuses] at hsmem
    have hnm := classifyRow_no_mismatch _ s hsmem
    cases s <;> simp [fillOfStatus] at hfill
    exact hnm rfl

/-- C10 witness: a concrete row where the blue overwrite happened, fed
back through the invariant. -/
theorem mismatch_overwrite_inv_witness :
    ∃ a0, ([2] : List Nat).head? = some a0 ∧
      (∃ va : ℚ, toNumber (cellAt [Value.num 10, Value.num 2,
        Value.num 21] a0) = some va) ∧
      ∃ s, (rowProcess [0] [1] [2] [Value.num 10, Value.num 2,
          Value.num 21]).statuses.get? 0 = some s ∧
        s ≠ CellStatus.missing ∧ fillOfStatus s ≠ some Fill.yellow := by
  refine mismatch_overwrite_inv [0] [1] [2]
    [Value.num 10, Value.num 2, Value.num 21] ?_
  have hm : rowMismatch [0] [1] [2]
      [Value.num 10, Value.num 2, Value.num 21] = true := by
    simp only [rowMismatch, cellAt, toNumber, List.head?, List.getD,
      List.get?, decide_eq_true_eq]
    norm_num
  rw [rowProcess_fills, hm, if_pos rfl]
  have hst : (rowProcess [0] [1] [2]
      [Value.num 10, Value.num 2, Value.num 21]).statuses
      = [CellStatus.lowest] := by decide
  rw [hst]
  rfl

/-- The mismatch check only looks at the first entry of each column list. -/
lemma rowMismatch_head_congr (rCols qCols : List Nat) (a1 a2 : List Nat)
    (row : List Value) (h : a1.head? = a2.head?) :
    rowMismatch rCols qCols a1 row = rowMismatch rCols qCols a2 row := by
  cases rCols with
  | nil => rfl
  | cons r rt =>
      cases qCols with
      | nil => rfl
      | cons q qt =>
          cases a1 with
          | nil =>
              cases a2 with
              | nil => rfl
              | cons b bt => cases h
          | cons a at1 =>
              cases a2 with
              | nil => cases h
              | cons b bt =>
                  rw [List.head?_cons, List.head?_cons,
                    Option.some_inj] at h
                  subst h
                  rfl

/-- Taking a prefix of a nonempty list keeps its head. -/
lemma take_head? {α : Type} (l : List α) (n : Nat) (hl : l ≠ [])
    (hn : n ≠ 0) : (l.take n).head? = l.head? := by
  cases l with
  | nil => exact absurd rfl hl
  | cons a t =>
      cases n with
      | zero => exact absurd rfl hn
      | succ m => rfl

/-- Unfolding of a processed sheet once a header and a nonempty Amount
list are known. -/
lemma processSheet_eq_detected (flag : Bool) (g : List (List Value))
    (hr : Nat) (h1 : detectHeaderRow g = some hr)
    (hne : (amountColsAll g hr).isEmpty = false) :
    processSheet flag g = some (sheetOutcomeOf g hr
      (if flag && decide (3 < (amountColsAll g hr).length)
        then (amountColsAll g hr).take 3 else amountColsAll g hr)) := by
  unfold processSheet
  rw [h1]
  show (if (amountColsAll g hr).isEmpty = true
      then (none : Option SheetOutcome)
      else some (sheetOutcomeOf g hr
        (if flag && decide (3 < (amountColsAll g hr).length)
          then (amountColsAll g hr).take 3 else amountColsAll g hr)))
    = some (sheetOutcomeOf g hr
        (if flag && decide (3 < (amountColsAll g hr).length)
          then (amountColsAll g hr).take 3 else amountColsAll g hr))
  rw [hne]
  simp

/-- C7.  With the `limit_to_first_three_amount_columns` flag on and more
than three detected Amount columns, exactly the first three (in column
order) are used for classification, while the Rate and Quantity column
lists and the per-sheet Mismatch count are identical to the run without
the flag. -/
theorem amount_truncation_spec (g : List (List Value)) (hr : Nat)
    (o o' : SheetOutcome) (h1 : detectHeaderRow g = some hr)
    (h2 : 3 < (amountColsAll g hr).length)
    (h3 : processSheet true g = some o)
    (h4 : processSheet false g = some o') :
    o.amountCols = (amountColsAll g hr).take 3 ∧
    o.amountCols.length = 3 ∧
    o'.amountCols = amountColsAll g hr ∧
    o.rateCols = rateColsOf g hr ∧ o'.rateCols = rateColsOf g hr ∧
    o.qtyCols = qtyColsOf g hr ∧ o'.qtyCols = qtyColsOf g hr ∧
    o.mism = o'.mism := by
  have hne : (amountColsAll g hr).isEmpty = false := by
    cases hc : amountColsAll g hr with
    | nil => rw [hc] at h2; simp at h2
    | cons a t => rfl
  rw [processSheet_eq_detected true g hr h1 hne, Option.some_inj] at h3
  rw [processSheet_eq_detected false g hr h1 hne, Option.some_inj] at h4
  rw [show (true && decide (3 < (amountColsAll g hr).length)) = true by
    simp [h2]] at h3
  rw [if_pos rfl] at h3
  rw [show (false && decide (3 < (amountColsAll g hr).length)) = false from
    rfl] at h4
  rw [if_neg (by simp)] at h4
  subst h3
  subst h4
  have hmrow : ∀ row, rowMismatch (rateColsOf g hr) (qtyColsOf g hr)
      ((amountColsAll g hr).take 3) row
      = rowMismatch (rateColsOf g hr) (qtyColsOf g hr)
          (amountColsAll g hr) row := by
    intro row
    apply rowMismatch_head_congr
    apply take_head?
    · cases hc : amountColsAll g hr with
      | nil => rw [hc] at h2; simp at h2
      | cons a t => simp
    · omega
  refine ⟨rfl, ?_, rfl, rfl, rfl, rfl, rfl, ?_⟩
  · show ((amountColsAll g hr).take 3).length = 3
    rw [List.length_take]
    omega
  · show (((g.drop (hr + 1)).map (rowProcess (rateColsOf g hr)
        (qtyColsOf g hr) ((amountColsAll g hr).take 3))).map
          RowResult.mism).sum
      = (((g.drop (hr + 1)).map (rowProcess (rateColsOf g hr)
        (qtyColsOf g hr) (amountColsAll g hr))).map
          RowResult.mism).sum
    induction g.drop (hr + 1) with
    | nil => rfl
    | cons rrow t ih =>
        simp only [List.map_cons, List.sum_cons, ih]
        congr 1
        rw [rowProcess_mism, rowProcess_mism, hmrow rrow]

/-- C7 witness: the truncation theorem applied to the five-Amount-column
example sheet. -/
theorem amount_truncation_spec_witness :
    fiveAmountOutT.amountCols = (amountColsAll fiveAmountGrid 0).take 3 ∧
    fiveAmountOutT.amountCols.length = 3 ∧
    fiveAmountOutF.amountCols = amountColsAll fiveAmountGrid 0 ∧
    fiveAmountOutT.rateCols = rateColsOf fiveAmountGrid 0 ∧
    fiveAmountOutF.rateCols = rateColsOf fiveAmountGrid 0 ∧
    fiveAmountOutT.qtyCols = qtyColsOf fiveAmountGrid 0 ∧
    fiveAmountOutF.qtyCols = qtyColsOf fiveAmountGrid 0 ∧
    fiveAmountOutT.mism = fiveAmountOutF.mism :=
  amount_truncation_spec fiveAmountGrid 0 fiveAmountOutT fiveAmountOutF
    (by decide) (by decide) (by decide) (by decide)

/-- A sheet is skipped exactly by the two `continue` branches: no header
found, or no Amount column detected. -/
lemma processSheet_none_cases (flag : Bool) (g : List (List Value))
    (h : detectHeaderRow g = none ∨
      ∃ hr, detectHeaderRow g = some hr ∧ amountColsAll g hr = []) :
    processSheet flag g = none := by
  rcases h with h | ⟨hr, h1, h2⟩
  · unfold processSheet
    rw [h]
  · unfold processSheet
    rw [h1]
    show (if (amountColsAll g hr).isEmpty = true
        then (none : Option SheetOutcome)
        else some (sheetOutcomeOf g hr
          (if flag && decide (3 < (amountColsAll g hr).length)
            then (amountColsAll g hr).take 3 else amountColsAll g hr)))
      = none
    rw [h2]
    rfl

/-- C8.  A sheet with no detected header, or with a header but no Amount
column, gets no comparison outcome (no cell statuses, no counters), yet
its merged content is still emitted in place in the output, the summary
table simply has no record for it, and the surrounding sheets are
processed exactly as they would be without it. -/
theorem sheet_skip_spec (flag : Bool)
    (book1 book2 : List (String × List (List Value))) (n : String)
    (g : List (List Value))
    (h : detectHeaderRow g = none ∨
      ∃ hr, detectHeaderRow g = some hr ∧ amountColsAll g hr = []) :
    processSheet flag g = none ∧
    (processBook flag (book1 ++ (n, g) :: book2)).1
      = (processBook flag book1).1 ++ (n, g, none)
          :: (processBook flag book2).1 ∧
    (processBook flag (book1 ++ (n, g) :: book2)).2
      = (processBook flag book1).2 ++ (processBook flag book2).2 := by
  have hnone := processSheet_none_cases flag g h
  refine ⟨hnone, ?_, ?_⟩
  · unfold processBook
    simp only [List.map_append, List.map_cons, hnone]
  · unfold processBook
    simp only [List.filterMap_append, List.filterMap_cons, hnone,
      Option.map_none']

/-- C8 witness: a sheet whose only row has no amount-pattern match is
skipped, passed through, and leaves the summary untouched. -/
theorem sheet_skip_spec_witness :
    processSheet false [[Value.text "foo"]] = none ∧
    (processBook false ([] ++ ("A", [[Value.text "foo"]])
        :: [("B", fiveAmountGrid)])).1
      = (processBook false []).1 ++ ("A", [[Value.text "foo"]], none)
          :: (processBook false [("B", fiveAmountGrid)]).1 ∧
    (processBook false ([] ++ ("A", [[Value.text "foo"]])
        :: [("B", fiveAmountGrid)])).2
      = (processBook false []).2 ++ (processBook false
          [("B", fiveAmountGrid)]).2 :=
  sheet_skip_spec false [] [("B", fiveAmountGrid)] "A"
    [[Value.text "foo"]] (Or.inl (by decide))

/-- C6.  Merge trim/prefix behavior: the first table of a group keeps all
its columns in order; a later table with more than two columns loses
exactly its first two and every kept column is renamed with the source
stem plus an underscore; a later table with at most two columns keeps all
its columns (renamed); and a 5-column first table merged with a 4-column
second table (none of whose column names read as placeholders) yields a
7-column MergedTable. -/
theorem merge_trim_spec (stem : String) (idx : Nat) (cols : List Col) :
    (idx = 0 → trimSource stem idx cols = cols) ∧
    (idx ≠ 0 → 2 < cols.length →
      trimSource stem idx cols
        = (cols.drop 2).map (fun p => (stem ++ "_" ++ p.1, p.2)) ∧
      (trimSource stem idx cols).length = cols.length - 2) ∧
    (idx ≠ 0 → cols.length ≤ 2 →
      trimSource stem idx cols
        = cols.map (fun p => (stem ++ "_" ++ p.1, p.2))) ∧
    (∀ (s1 s2 : String) (t1 t2 : List Col),
      t1.length = 5 → t2.length = 4 →
      (∀ p ∈ t1, strStarts p.1 "Unnamed" = false) →
      (∀ p ∈ t2, strStarts (s2 ++ "_" ++ p.1) "Unnamed" = false) →
      (mergeGroup [(s1, t1), (s2, t2)]).length = 7) := by
  refine ⟨?_, ?_, ?_, ?_⟩
  · intro h
    unfold trimSource
    rw [if_pos h]
  · intro h hl
    unfold trimSource
    rw [if_neg h, if_pos hl]
    exact ⟨rfl, by rw [List.length_map, List.length_drop]⟩
  · intro h hl
    unfold trimSource
    rw [if_neg h, if_neg (by omega)]
  · intro s1 s2 t1 t2 h1 h2 hu1 hu2
    unfold mergeGroup
    have he : List.enum [(s1, t1), (s2, t2)]
        = [(0, (s1, t1)), (1, (s2, t2))] := rfl
    rw [he]
    simp only [List.map_cons, List.map_nil, List.flatten_cons,
      List.flatten_nil, List.append_nil]
    have ht1 : trimSource s1 0 t1 = t1 := by
      unfold trimSource
      rw [if_pos rfl]
    have ht2 : trimSource s2 1 t2
        = (t2.drop 2).map (fun p => (s2 ++ "_" ++ p.1, p.2)) := by
      unfold trimSource
      rw [if_neg (by omega), if_pos (by omega)]
    rw [ht1, ht2, List.filter_append]
    have hf1 : t1.filter (fun p => !strStarts p.1 "Unnamed") = t1 := by
      rw [List.filter_eq_self]
      intro p hp
      rw [Bool.not_eq_true']
      exact hu1 p hp
    have hf2 : ((t2.drop 2).map
        (fun p => (s2 ++ "_" ++ p.1, p.2))).filter
          (fun p => !strStarts p.1 "Unnamed")
        = (t2.drop 2).map (fun p => (s2 ++ "_" ++ p.1, p.2)) := by
      rw [List.filter_eq_self]
      intro p hp
      rw [List.mem_map] at hp
      obtain ⟨q, hq, hqe⟩ := hp
      rw [Bool.not_eq_true', ← hqe]
      exact hu2 q (List.mem_of_mem_drop hq)
    rw [hf1, hf2, List.length_append, List.length_map, List.length_drop,
      h1, h2]

/-- C6 witness: the trim theorem applied to the concrete 5-column and
4-column tables. -/
theorem merge_trim_spec_witness :
    trimSource "a" 0 demoCols5 = demoCols5 ∧
    (mergeGroup [("a", demoCols5), ("b", demoCols4)]).length = 7 := by
  constructor
  · exact (merge_trim_spec "a" 0 demoCols5).1 rfl
  · exact (merge_trim_spec "a" 0 demoCols5).2.2.2 "a" "b" demoCols5
      demoCols4 (by decide) (by decide) (by decide) (by decide)

/-- Every column surviving the per-source cleanup has a present cell: the
final `dropna(axis=1, how='all')` removes all-absent columns whatever
their name. -/
lemma cleanTable_no_allAbsent (stem : String) (cols : List Col) :
    ∀ p ∈ cleanTable stem cols, allAbsent p.2 = false := by
  intro p hp
  unfold cleanTable at hp
  rw [List.mem_filter] at hp
  have h := hp.2
  rwa [Bool.not_eq_true'] at h

/-- C9.  The merge drops every all-absent column of every contributing
table — placeholder-named or not — so a named contractor column that is
entirely empty never appears in the MergedTable. -/
theorem merged_no_all_absent (sources : List (String × List Col))
    (p : Col) (hp : p ∈ mergedOfGroup sources) :
    allAbsent p.2 = false := by
  unfold mergedOfGroup mergeGroup at hp
  rw [List.mem_filter] at hp
  obtain ⟨hmem, _⟩ := hp
  rw [List.mem_flatten] at hmem
  obtain ⟨l, hl, hpl⟩ := hmem
  rw [List.mem_map] at hl
  obtain ⟨ti, hti, hle⟩ := hl
  obtain ⟨st, hst, htisnd⟩ : ∃ st ∈ sources.map
      (fun st => (st.1, cleanTable st.1 st.2)), ti.2 = st := by
    refine ⟨ti.2, ?_, rfl⟩
    have hmap : (List.enum (sources.map
        (fun st => (st.1, cleanTable st.1 st.2)))).map Prod.snd
        = sources.map (fun st => (st.1, cleanTable st.1 st.2)) :=
      List.enum_map_snd _
    rw [← hmap]
    exact List.mem_map_of_mem Prod.snd hti
  rw [List.mem_map] at hst
  obtain ⟨src, hsrc, hste⟩ := hst
  rw [← hle] at hpl
  unfold trimSource at hpl
  by_cases hidx : ti.1 = 0
  · rw [if_pos hidx] at hpl
    rw [htisnd, ← hste] at hpl
    exact cleanTable_no_allAbsent src.1 src.2 p hpl
  · rw [if_neg hidx] at hpl
    rw [List.mem_map] at hpl
    obtain ⟨q, hq, hqe⟩ := hpl
    have hq2 : q ∈ cleanTable src.1 src.2 := by
      by_cases hlen : 2 < ti.2.2.length
      · rw [if_pos hlen] at hq
        have := List.mem_of_mem_drop hq
        rwa [htisnd, ← hste] at this
      · rw [if_neg hlen] at hq
        rwa [htisnd, ← hste] at hq
    have hq3 := cleanTable_no_allAbsent src.1 src.2 q hq2
    rw [← hqe]
    exact hq3

/-- C9 witness: a one-source group with a single non-empty column, run
through the merge. -/
theorem merged_no_all_absent_witness :
    allAbsent [Value.text "x"] = false :=
  merged_no_all_absent [("a", [("ITEM", [Value.text "x"])])]
    ("ITEM", [Value.text "x"]) (by decide)
